import Mathlib

/-!
Verification development for the Python stub generator (`pyi_generator.py`).

The repository's single source file implements a `ModuleStubGenerator` class
that introspects a loaded Python module tree and writes `.pyi` stub files.
This file gives a shallow embedding of that code into Lean: the Python object
model is represented by explicit data (classes with identity keys, modules
referenced through an environment mapping object ids to module data), and the
generator's methods become pure Lean functions over an explicit generator
state and an explicit record of filesystem effects.

Embedding conventions:
* Python strings are `String`; `str.startswith` / `str.strip` / `str.split`
  and `sorted(...)` are modelled by the executable helpers below.
* `str.isidentifier` is modelled over the ASCII identifier alphabet
  (letters, digits, underscore); all examples appearing in theorems stay
  inside that alphabet.
* Python `dict` assignment is `dictInsert` (overwrite in place, insert at the
  end), Python `set.add` is `setAdd`; iteration order of a dict is its
  insertion order, matching CPython.
* `id(obj)` identity is an explicit `pyId : Nat` field; the garbage-collector
  quirks of id reuse are outside the model.
* Recursion of `create_module_structure` is fuel-indexed; `none` means the
  fuel ran out.  Termination of the real traversal is the statement that a
  concrete fuel bound suffices (claim C4).
-/

namespace PyiGen

/-! ### String helpers modelling Python builtins -/

/-- Python `s.startswith(pre)`. -/
def pyStartswith (s pre : String) : Bool := pre.data.isPrefixOf s.data

/-- Python `s.endswith(suf)`. -/
def pyEndswith (s suf : String) : Bool := suf.data.isSuffixOf s.data

/-- Whitespace characters recognised by Python `str.strip` (ASCII core). -/
def isPyWs (c : Char) : Bool := c == ' ' || c == '\n' || c == '\t' || c == '\r'

/-- Python `s.strip()`. -/
def pyStrip (s : String) : String :=
  ⟨((s.data.dropWhile isPyWs).reverse.dropWhile isPyWs).reverse⟩

/-- Split a character list at a separator character, Python `str.split(sep)` style. -/
def splitOnChar (sep : Char) : List Char → List (List Char)
  | [] => [[]]
  | c :: cs =>
    let r := splitOnChar sep cs
    if c == sep then [] :: r
    else
      match r with
      | [] => [[c]]
      | g :: gs => (c :: g) :: gs

/-- Python `module_name.split('.')[-1]`. -/
def lastSegment (s : String) : String :=
  match (splitOnChar '.' s.data).getLast? with
  | some l => ⟨l⟩
  | none => s

/-- Python `sep.join(parts)`. -/
def joinWith (sep : String) : List String → String
  | [] => ""
  | [x] => x
  | x :: y :: xs => x ++ sep ++ joinWith sep (y :: xs)

/-- The lines of a string, splitting at newline characters. -/
def pyLines (s : String) : List String :=
  (splitOnChar '\n' s.data).map (fun l => ⟨l⟩)

/-- Code-point lexicographic comparison of character lists (Python string
`<`), written so that it evaluates inside the kernel. -/
def charListLt : List Char → List Char → Bool
  | [], [] => false
  | [], _ :: _ => true
  | _ :: _, [] => false
  | a :: as, b :: bs =>
    if a.toNat < b.toNat then true
    else if b.toNat < a.toNat then false
    else charListLt as bs

/-- Python string comparison `a < b`. -/
def strLt (a b : String) : Bool := charListLt a.data b.data

/-- Insert into a list sorted by a string key (helper for `pySorted`). -/
def sortedInsert (key : α → String) (x : α) : List α → List α
  | [] => [x]
  | y :: ys => if strLt (key x) (key y) then x :: y :: ys else y :: sortedInsert key x ys

/-- Python `sorted(xs, key=...)` (a stable sort; `dir()` results have unique names). -/
def pySorted (key : α → String) : List α → List α
  | [] => []
  | x :: xs => sortedInsert key x (pySorted key xs)

/-- Python `set.add`. -/
def setAdd [BEq α] (s : List α) (x : α) : List α :=
  if s.contains x then s else s ++ [x]

/-- Python `dict[k] = v`: overwrite the binding in place, or append a new one. -/
def dictInsert [BEq α] (d : List (α × β)) (k : α) (v : β) : List (α × β) :=
  if d.any (fun p => p.1 == k) then
    d.map (fun p => if p.1 == k then (k, v) else p)
  else d ++ [(k, v)]

/-! ### Name Sanitizer (`_sanitize_name`) and its identifier predicate -/

/-- First character of a Python identifier (ASCII core of `str.isidentifier`). -/
def isIdentStart (c : Char) : Bool := c.isAlpha || c == '_'

/-- Continuation character of a Python identifier (ASCII core). -/
def isIdentCont (c : Char) : Bool := c.isAlphanum || c == '_'

/-- Python `name.isidentifier()` over the ASCII alphabet. -/
def pyIsIdentifier (s : String) : Bool :=
  match s.data with
  | [] => false
  | c :: cs => isIdentStart c && cs.all isIdentCont

/-- `ModuleStubGenerator._sanitize_name`. -/
def sanitizeName (name : String) : String :=
  if !pyIsIdentifier name then "_" ++ name else name

/-! ### Type Annotation Resolver (`_get_type_annotation`) -/

/-- The fixed primitive kinds tested by `isinstance(obj, (int, float, str, bool))`. -/
inductive PrimKind
  | pint
  | pfloat
  | pstr
  | pbool
deriving DecidableEq

/-- `type(obj).__name__` for the primitive kinds. -/
def PrimKind.pyName : PrimKind → String
  | .pint => "int"
  | .pfloat => "float"
  | .pstr => "str"
  | .pbool => "bool"

/-- A runtime value as far as `_get_type_annotation` can observe it:
`annots` is `__annotations__` when the attribute exists (annotation values
already stringified), `annotsBroken` records that calling `.get` on it raises,
and `primKind` records which primitive type an `isinstance` check matches. -/
structure PyValue where
  annots : Option (List (String × String)) := none
  annotsBroken : Bool := false
  primKind : Option PrimKind := none
deriving DecidableEq

/-- `ModuleStubGenerator._get_type_annotation`: `hasattr(obj, '__annotations__')`
is tried first; inside that branch `str(obj.__annotations__.get('return', 'Any'))`
either yields the stringified annotation, the default `'Any'`, or raises and is
caught by the bare `except` (yielding `'Any'`).  Otherwise the `isinstance`
chain over the primitive kinds runs, with `'Any'` as the final fallback. -/
def getTypeAnnotation (v : PyValue) : String :=
  match v.annots with
  | some entries =>
    if v.annotsBroken then "Any"
    else
      match entries.lookup "return" with
      | some a => a
      | none => "Any"
  | none =>
    match v.primKind with
    | some k => k.pyName
    | none => "Any"

/-! ### Internal-module denylist (`_is_internal_module`) -/

/-- The literal prefix denylist of `_is_internal_module`. -/
def internalDenylist : List String :=
  ["builtins", "_", "sys", "os", "io", "collections",
   "typing", "abc", "enum", "functools", "itertools",
   "operator", "weakref", "threading", "multiprocessing"]

/-- `ModuleStubGenerator._is_internal_module`. -/
def isInternalModule (moduleName : String) : Bool :=
  internalDenylist.any (fun p => pyStartswith moduleName p)

/-! ### Class Stub Renderer (`dump_class_stub`) -/

/-- A class attribute as `dump_class_stub` observes it after `getattr`:
either a callable whose `inspect.signature` succeeds (with the stringified
signature), a callable whose signature raises (with whether
`inspect.ismethod(attr) or hasattr(attr, '__self__')` holds), a `property`,
or any other value. -/
inductive CMemberVal
  | callableSig (sig : String)
  | callableNoSig (boundLike : Bool)
  | propV
  | plainV (v : PyValue)
deriving DecidableEq

/-- One entry of `dir(cls)` together with whether `getattr(cls, name)` succeeds. -/
structure ClassMember where
  name : String
  accessible : Bool := true
  val : CMemberVal
deriving DecidableEq

/-- A class object: `pyId` is its `id(...)` identity, `declName` its
`__name__`, `declModule` its `__module__` (when present), `bases` the
`__name__`s of its `__bases__`, `doc` its `__doc__`, and `cmembers` the
entries of `dir(cls)`. -/
structure ClassObj where
  pyId : Nat
  declName : String
  declModule : Option String := none
  bases : List String := []
  doc : Option String := none
  cmembers : List ClassMember := []
deriving DecidableEq

/-- The dunder names exempted from the privacy skip in `dump_class_stub`. -/
def specialKeep : List String :=
  ["__init__", "__new__", "__call__", "__str__", "__repr__"]

/-- Python `doc.replace('\x22\x22\x22', '\\\x22\\\x22\\\x22')`: escape each
triple-quote sequence (leftmost, non-overlapping). -/
def escTriple : List Char → List Char
  | '"' :: '"' :: '"' :: rest =>
    '\\' :: '"' :: '\\' :: '"' :: '\\' :: '"' :: escTriple rest
  | c :: rest => c :: escTriple rest
  | [] => []

/-- A rendered class-body line, tagged with the section it is appended to
(`class_vars`, `properties` or `methods` in the source). -/
inductive StubEntry
  | varE (line : String)
  | propE (line : String)
  | methodE (line : String)
deriving DecidableEq

/-- The body of the member loop of `dump_class_stub`: privacy filter, the
`getattr` guard, then dispatch on `callable` / `property` / other.  Returns
`none` exactly when the loop executes `continue` for this member. -/
def classMemberEntry (m : ClassMember) : Option StubEntry :=
  if pyStartswith m.name "_" && !specialKeep.contains m.name then none
  else if !m.accessible then none
  else
    let sname := sanitizeName m.name
    some
      (match m.val with
       | .callableSig sig => .methodE ("    def " ++ sname ++ sig ++ ": ...")
       | .callableNoSig boundLike =>
         if m.name == "__init__" || m.name == "__new__" then
           .methodE ("    def " ++ sname ++ "(self, *args, **kwargs): ...")
         else if boundLike then
           .methodE ("    def " ++ sname ++ "(self, *args, **kwargs): ...")
         else
           .methodE ("    @staticmethod\n    def " ++ sname ++ "(*args, **kwargs): ...")
       | .propV => .propE ("    " ++ sname ++ ": Any")
       | .plainV v => .varE ("    " ++ sname ++ ": " ++ getTypeAnnotation v))

/-- All rendered entries of a class: the loop runs over `sorted(dir(cls))`. -/
def classStubEntries (cls : ClassObj) : List StubEntry :=
  (pySorted (fun m => m.name) cls.cmembers).filterMap classMemberEntry

/-- `ModuleStubGenerator.dump_class_stub`. -/
def dumpClassStub (cls : ClassObj) : String :=
  let className := sanitizeName cls.declName
  let bases := cls.bases.filter (fun b => b != "object")
  let header :=
    if !bases.isEmpty then "class " ++ className ++ "(" ++ joinWith ", " bases ++ "):"
    else "class " ++ className ++ ":"
  let docLines :=
    match cls.doc with
    | some d =>
      let d' := pyStrip ⟨escTriple d.data⟩
      if d' != "" then
        let truncated :=
          if d'.data.length > 200 then (⟨d'.data.take 200⟩ : String) ++ "..." else d'
        ["    \"\"\"" ++ truncated ++ "\"\"\""]
      else []
    | none => []
  let entries := classStubEntries cls
  let classVars := entries.filterMap (fun e => match e with | .varE l => some l | _ => none)
  let props := entries.filterMap (fun e => match e with | .propE l => some l | _ => none)
  let methods := entries.filterMap (fun e => match e with | .methodE l => some l | _ => none)
  let body := if entries.isEmpty then ["    pass"] else classVars ++ props ++ methods
  joinWith "\n" ([header] ++ docLines ++ body) ++ "\n\n"

/-! ### Function Stub Renderer (`dump_function_stub`) -/

/-- A module-level callable: `declName` is `__name__`, `declModule` is
`__module__` (when present), `sig` the stringified `inspect.signature`
result when it succeeds. -/
structure FuncObj where
  declName : String
  declModule : Option String := none
  sig : Option String := none
deriving DecidableEq

/-- `ModuleStubGenerator.dump_function_stub`. -/
def dumpFunctionStub (f : FuncObj) : String :=
  let fname := sanitizeName f.declName
  match f.sig with
  | some sig => "def " ++ fname ++ sig ++ ": ...\n"
  | none => "def " ++ fname ++ "(*args, **kwargs): ...\n"

/-! ### Module object model and Member Classifier (`get_module_members`) -/

/-- A module attribute value as `inspect` classifies it: a class object, a
module object (referenced by its `id`, resolved through the environment), any
other callable, or a plain value. -/
inductive MValue
  | clsV (c : ClassObj)
  | modRef (mid : Nat)
  | funcV (f : FuncObj)
  | plainV (v : PyValue)
deriving DecidableEq

/-- One entry of `dir(module)` with whether `getattr(module, name)` succeeds. -/
structure ModuleMember where
  name : String
  accessible : Bool := true
  val : MValue
deriving DecidableEq

/-- A module object: its `__name__` and the entries of `dir(module)`. -/
structure ModuleObj where
  mname : String
  members : List ModuleMember := []
deriving DecidableEq

/-- The live object graph: every module `id` resolves to a module object
(Python attribute access can never dangle). -/
def Env := Nat → ModuleObj

/-- The four-way result dictionaries of `get_module_members`, in dict
insertion order. -/
structure Members where
  classes : List (String × ClassObj) := []
  functions : List (String × FuncObj) := []
  submodules : List (String × Nat) := []
  vars : List (String × PyValue) := []
deriving DecidableEq

/-- The mutable fields of `ModuleStubGenerator` threaded through a run. -/
structure GenState where
  processedModules : List String := []
  processedClasses : List String := []
  processedClassObjects : List Nat := []
  classNameMapping : List (Nat × String) := []
deriving DecidableEq

/-- The class-ownership test of `get_module_members`: `attr.__module__` is
absent, equals the module's name, or is a dotted descendant of it. -/
def classOwned (moduleName : String) (c : ClassObj) : Bool :=
  match c.declModule with
  | none => true
  | some am => am == moduleName || pyStartswith am (moduleName ++ ".")

/-- The function-ownership test: `attr.__module__` absent or equal to the
module's name. -/
def funcOwned (moduleName : String) (f : FuncObj) : Bool :=
  match f.declModule with
  | none => true
  | some am => am == moduleName

/-- The submodule test: the attribute's `__name__` differs from the current
module's, is a dotted descendant of it, and is not on the internal denylist. -/
def submoduleQualifies (env : Env) (moduleName : String) (mid : Nat) : Bool :=
  let attrName := (env mid).mname
  !(attrName == moduleName) && pyStartswith attrName (moduleName ++ ".")
    && !isInternalModule attrName

/-- One iteration of the member loop of `get_module_members`.  The
accumulator carries the four result dicts, the local
`class_objects_in_module` duplicate tracker, and the generator state (whose
`class_name_mapping` the loop updates). -/
def classifyStep (env : Env) (moduleName : String)
    (acc : Members × List (Nat × String) × GenState) (mem : ModuleMember) :
    Members × List (Nat × String) × GenState :=
  let mems := acc.1
  let dup := acc.2.1
  let st := acc.2.2
  if pyStartswith mem.name "_" then acc
  else if !mem.accessible then acc
  else
    match mem.val with
    | .clsV c =>
      if classOwned moduleName c then
        if dup.any (fun p => p.1 == c.pyId) then acc
        else
          let chosen := if c.declName == mem.name then c.declName else mem.name
          ({ mems with classes := dictInsert mems.classes chosen c },
           dup ++ [(c.pyId, chosen)],
           { st with classNameMapping := dictInsert st.classNameMapping c.pyId chosen })
      else acc
    | .modRef mid =>
      if submoduleQualifies env moduleName mid then
        ({ mems with submodules := dictInsert mems.submodules mem.name mid }, dup, st)
      else acc
    | .funcV f =>
      if funcOwned moduleName f then
        ({ mems with functions := dictInsert mems.functions mem.name f }, dup, st)
      else acc
    | .plainV v =>
      ({ mems with vars := dictInsert mems.vars mem.name v }, dup, st)

/-- `ModuleStubGenerator.get_module_members`: iterate over `dir(module)`
(sorted), classify each accessible non-underscore member. -/
def getModuleMembers (env : Env) (m : ModuleObj) (st : GenState) :
    Members × GenState :=
  let r := (pySorted (fun mm => mm.name) m.members).foldl
    (classifyStep env m.mname) ({}, [], st)
  (r.1, r.2.2)

/-! ### Tree Builder (`create_module_structure`) -/

/-- One file written by the run. -/
structure FileWrite where
  path : String
  content : String
deriving DecidableEq

/-- Filesystem effects of the traversal: directories created (`mkdir`) and
files written, in order. -/
structure RunOut where
  dirs : List String := []
  writes : List FileWrite := []
deriving DecidableEq

/-- The class-processing loop of `create_module_structure` (lines 211-233):
an already-processed identity is skipped, with an alias line appended only if
the sanitized current and recorded names differ; a fresh identity is marked
processed and its full stub block appended. -/
def processClasses (moduleName : String) :
    List (String × ClassObj) → GenState → List String → GenState × List String
  | [], st, acc => (st, acc)
  | (className, cls) :: rest, st, acc =>
    if st.processedClassObjects.contains cls.pyId then
      let existing := (st.classNameMapping.lookup cls.pyId).getD className
      let safeClassName := sanitizeName className
      let safeExisting := sanitizeName existing
      let acc' :=
        if safeClassName != safeExisting then acc ++ [safeClassName ++ " = " ++ safeExisting]
        else acc
      processClasses moduleName rest st acc'
    else
      let st' :=
        { st with
          processedClassObjects := setAdd st.processedClassObjects cls.pyId,
          processedClasses := setAdd st.processedClasses (moduleName ++ "." ++ className) }
      processClasses moduleName rest st' (acc ++ [dumpClassStub cls])

/-- The submodule loop of `create_module_structure` (lines 246-257): for each
submodule member, recurse (the recursive call is passed in as `recur`), then
append the import-forwarding line for the local member name.  `none`
propagates fuel exhaustion of the model's recursion. -/
def goSubmodules (env : Env)
    (recur : ModuleObj → String → GenState → RunOut → Option (GenState × RunOut)) :
    List (String × Nat) → GenState → RunOut → List String →
      Option (GenState × RunOut × List String)
  | [], st, out, lines => some (st, out, lines)
  | (sname, mid) :: rest, st, out, lines =>
    match recur (env mid) (env mid).mname st out with
    | none => none
    | some (st', out') =>
      goSubmodules env recur rest st' out'
        (lines ++ ["from . import " ++ sanitizeName sname])

/-- `ModuleStubGenerator.create_module_structure`, fuel-indexed.  The
processed-set key is `f"{base_path}/{module_name}"`; a visited key returns
immediately.  Otherwise: record the key, `mkdir` the directory named from the
sanitized last dotted segment, classify members, render classes (with global
dedup), functions and variables, recurse into submodules, and write
`__init__.pyi`. -/
def createModuleStructure (env : Env) :
    Nat → ModuleObj → String → String → GenState → RunOut →
      Option (GenState × RunOut)
  | 0, _, _, _, _, _ => none
  | fuel + 1, m, basePath, moduleName, st0, out0 =>
    let key := basePath ++ "/" ++ moduleName
    if st0.processedModules.contains key then some (st0, out0)
    else
      let st1 := { st0 with processedModules := setAdd st0.processedModules key }
      let safeModuleName := sanitizeName (lastSegment moduleName)
      let moduleDir := basePath ++ "/" ++ safeModuleName
      let out1 := { out0 with dirs := out0.dirs ++ [moduleDir] }
      let mr := getModuleMembers env m st1
      let mems := mr.1
      let st2 := mr.2
      let pc := processClasses moduleName mems.classes st2 []
      let st3 := pc.1
      let classLines := pc.2
      let funcLines := mems.functions.map (fun p => dumpFunctionStub p.2)
      let varLines :=
        mems.vars.map (fun p => sanitizeName p.1 ++ ": " ++ getTypeAnnotation p.2)
      (goSubmodules env
          (fun sub subName st out => createModuleStructure env fuel sub moduleDir subName st out)
          mems.submodules st3 out1 []).map
        (fun r =>
          let st4 := r.1
          let out2 := r.2.1
          let importLines := r.2.2
          let initContent :=
            ["from typing import Any\n"] ++ classLines ++ funcLines ++ varLines ++ importLines
          let content := joinWith "\n" initContent
          let finalContent :=
            if pyStrip content != "" then
              (if pyEndswith content "\n" then content else content ++ "\n")
            else "from typing import Any\n"
          let initFile := moduleDir ++ "/__init__.pyi"
          (st4, { out2 with writes := out2.writes ++ [⟨initFile, finalContent⟩] }))

/-! ### Driver (`dump_module`) and filesystem model -/

/-- A flat filesystem: an association list from file path to content. -/
structure FSState where
  files : List (String × String) := []
deriving DecidableEq

/-- Whether a path lies at or below a directory root. -/
def pathUnder (root p : String) : Bool := p == root || pyStartswith p (root ++ "/")

/-- Apply the run's file writes to a filesystem (each `open(..., 'w')`
overwrites). -/
def applyWrites (fs : FSState) (ws : List FileWrite) : FSState :=
  ⟨ws.foldl (fun files w => dictInsert files w.path w.content) fs.files⟩

/-- The `try` block of `dump_module`: run the traversal from a fresh output
root with fresh per-run structures already in the generator, apply the
writes.  The traversal itself raises nothing in the model, so the
`except` handler of `dump_module` has nothing to catch here. -/
def runGeneration (env : Env) (fuel : Nat) (m : ModuleObj) (outputDir : String)
    (fs : FSState) : Option FSState :=
  match createModuleStructure env fuel m outputDir m.mname {} {} with
  | none => none
  | some (_, out) => some (applyWrites fs out.writes)

/-- `dump_module` (the method): the output-root preparation — `shutil.rmtree`
when the directory exists and `remove_if_exists` is set, then `mkdir` — runs
BEFORE the `try` block, so a failure there (modelled by the `rmtreeRaises` /
`mkdirRaises` flags) propagates as `Except.error`; everything after that is
inside the `try` and cannot escape. -/
def dumpModule (env : Env) (fuel : Nat) (m : ModuleObj) (outputDir : String)
    (removeIfExists rmtreeRaises mkdirRaises : Bool) (fs : FSState) :
    Except String (Option FSState) :=
  if fs.files.any (fun pr => pathUnder outputDir pr.1) && removeIfExists then
    if rmtreeRaises then Except.error "rmtree"
    else if mkdirRaises then Except.error "mkdir"
    else
      Except.ok (runGeneration env fuel m outputDir
        ⟨fs.files.filter (fun pr => !pathUnder outputDir pr.1)⟩)
  else if mkdirRaises then Except.error "mkdir"
  else Except.ok (runGeneration env fuel m outputDir fs)

/-- Restriction of a filesystem to the output root (the "output tree"). -/
def outputTreeAt (outputDir : String) (fs : FSState) (p : String) : Option String :=
  if pathUnder outputDir p then fs.files.lookup p else none

/-! ### Spec-side definitions (from the claims' words, for refinement checks) -/

/-- Modelled from the claim wording for C1: the canonical name equals the
candidate name when it matches the class's own declared name, and otherwise
the class's own declared name is preferred. -/
def chosenNameClaim (declName candidate : String) : String :=
  if candidate == declName then candidate else declName

/-- The return annotation a value "carries", in the sense of claim C6: the
`'return'` entry of its annotations mapping, when that mapping is present and
usable. -/
def declaredReturn (v : PyValue) : Option String :=
  if v.annotsBroken then none
  else
    match v.annots with
    | some entries => entries.lookup "return"
    | none => none

/-- Modelled from the claim wording for C6: declared return annotation first,
then the primitive kinds, then `Any`. -/
def getTypeAnnotationClaim (v : PyValue) : String :=
  match declaredReturn v with
  | some a => a
  | none =>
    match v.primKind with
    | some k => k.pyName
    | none => "Any"

/-- The amended rule for C6 (claim corrected at the one forced point): a
value that exposes an annotations mapping never falls through to the
primitive-kind rule; a missing or unreadable `'return'` entry yields `Any`
directly. -/
def getTypeAnnotationAmended (v : PyValue) : String :=
  if v.annots.isSome then
    match declaredReturn v with
    | some a => a
    | none => "Any"
  else
    match v.primKind with
    | some k => k.pyName
    | none => "Any"

/-- In how many of the four classifier categories a name is bound. -/
def catCount (mems : Members) (n : String) : Nat :=
  (if (mems.classes.lookup n).isSome then 1 else 0) +
  (if (mems.functions.lookup n).isSome then 1 else 0) +
  (if (mems.submodules.lookup n).isSome then 1 else 0) +
  (if (mems.vars.lookup n).isSome then 1 else 0)

/-! ### Concrete scenarios used by counterexamples and witnesses -/

/-- An environment with only empty modules. -/
def envTrivial : Env := fun _ => { mname := "", members := [] }

/-- C1 scenario: a class declared as `Widget` in module `m`, reachable there
only under the alias `Alias`. -/
def clsWidget : ClassObj := { pyId := 5, declName := "Widget", declModule := some "m" }

/-- C1 scenario module. -/
def modAlias : ModuleObj :=
  { mname := "m", members := [{ name := "Alias", val := MValue.clsV clsWidget }] }

/-- C2 scenario: a class defined in another module, merely imported here. -/
def clsForeign : ClassObj := { pyId := 11, declName := "Foo", declModule := some "othermod" }

/-- C2 scenario module: `Foo` is accessible, not private, and a class, but
fails the ownership test. -/
def modForeign : ModuleObj :=
  { mname := "m", members := [{ name := "Foo", val := MValue.clsV clsForeign }] }

/-- C3 scenario: one class object with identity 7, declared in `pkg.a.sub`. -/
def clsShared : ClassObj := { pyId := 7, declName := "Widget", declModule := some "pkg.a.sub" }

/-- C3 scenario: `pkg.a.sub` re-exports the shared class under the alias `W2`. -/
def modSub : ModuleObj :=
  { mname := "pkg.a.sub", members := [{ name := "W2", val := MValue.clsV clsShared }] }

/-- C3 scenario: `pkg.a` owns the shared class under its declared name and
contains the submodule `sub`. -/
def modA : ModuleObj :=
  { mname := "pkg.a",
    members := [
      { name := "Widget", val := MValue.clsV clsShared },
      { name := "sub", val := MValue.modRef 2 }] }

/-- C3 scenario root module `pkg`. -/
def modPkg : ModuleObj :=
  { mname := "pkg", members := [{ name := "a", val := MValue.modRef 1 }] }

/-- C3 scenario environment. -/
def envC3 : Env := fun n => if n == 1 then modA else if n == 2 then modSub else modPkg

/-- The full C3 run from the root. -/
def runC3 : Option (GenState × RunOut) :=
  createModuleStructure envC3 4 modPkg "stubs" "pkg" {} {}

/-- All lines of all files written by the C3 run. -/
def runC3AllLines : List String :=
  match runC3 with
  | some (_, out) => (out.writes.map (fun w => pyLines w.content)).flatten
  | none => []

/-- C7 scenario: the module `demo.utils`. -/
def modUtils : ModuleObj := { mname := "demo.utils", members := [] }

/-- C7 scenario: `demo` reaches `demo.utils` both as `helpers` and as `utils`. -/
def modDemo : ModuleObj :=
  { mname := "demo",
    members := [
      { name := "helpers", val := MValue.modRef 1 },
      { name := "utils", val := MValue.modRef 1 }] }

/-- C7 scenario environment. -/
def envC7 : Env := fun n => if n == 1 then modUtils else modDemo

/-- The C7 run from the root `demo`. -/
def runC7 : Option (GenState × RunOut) :=
  createModuleStructure envC7 4 modDemo "stubs" "demo" {} {}

/-- The content of the parent descriptor file written by the C7 run. -/
def c7ParentContent : Option String :=
  match runC7 with
  | some (_, out) =>
    (out.writes.find? (fun w => w.path == "stubs/demo/__init__.pyi")).map
      (fun w => w.content)
  | none => none

/-- C8 scenario: a stale output tree already on disk. -/
def fsStale : FSState := ⟨[("stubs/old/__init__.pyi", "stale")]⟩

/-- Whether an `Except` result is a normal return (no exception escaped). -/
def exceptIsOk : Except ε α → Bool
  | Except.ok _ => true
  | Except.error _ => false

/-- The content of the last write to a path, if any (used to characterise the
final output tree). -/
def wLast : List FileWrite → String → Option String
  | [], _ => none
  | w :: rest, p =>
    match wLast rest p with
    | some c => some c
    | none => if w.path == p then some w.content else none

/-- C10 witness scenario: a public plain member. -/
def memFoo : ClassMember := { name := "foo", val := CMemberVal.plainV {} }

/-- C10 witness scenario: a class with one public member and one private one. -/
def clsWithFoo : ClassObj :=
  { pyId := 1, declName := "C",
    cmembers := [memFoo, { name := "_hidden", val := CMemberVal.propV }] }

/-- C2 witness scenario: a plain, non-callable, accessible public member. -/
def memX : ModuleMember := { name := "x", val := MValue.plainV {} }

/-- C2 witness scenario module. -/
def modPlain : ModuleObj := { mname := "m", members := [memX] }

/-- C3 amended-theorem witness: generator state in which identity 7 was
already rendered (under the name `W2`, consistently recorded). -/
def stSeen : GenState := { processedClassObjects := [7], classNameMapping := [(7, "W2")] }

/-- C4 witness: a state in which the key `stubs/m` was already processed. -/
def stVisited : GenState := { processedModules := ["stubs/m"] }

end PyiGen

namespace PyiGen

/-! ### Helper lemmas -/

theorem lookup_map_overwrite_ne [BEq α] [LawfulBEq α] (d : List (α × β)) (k : α) (v : β)
    (k' : α) (hne : k' ≠ k) :
    (d.map (fun q => if q.1 == k then (k, v) else q)).lookup k' = d.lookup k' := by
  have hk : (k' == k) = false := by simpa using hne
  induction d with
  | nil => simp
  | cons q d ih =>
    obtain ⟨a, b⟩ := q
    by_cases hq : a == k
    · have hq' : (k' == a) = false := by
        simp only at hq
        rw [eq_of_beq hq]; exact hk
      simp only [List.map_cons, if_pos hq, List.lookup_cons, hk, hq']
      exact ih
    · simp only [List.map_cons, if_neg hq, List.lookup_cons]
      cases hkq : k' == a
      · exact ih
      · rfl

theorem lookup_map_overwrite_self [BEq α] [LawfulBEq α] (d : List (α × β)) (k : α) (v : β)
    (hany : d.any (fun q => q.1 == k) = true) :
    (d.map (fun q => if q.1 == k then (k, v) else q)).lookup k = some v := by
  induction d with
  | nil => simp at hany
  | cons q d ih =>
    obtain ⟨a, b⟩ := q
    by_cases hq : a == k
    · simp [List.map_cons, if_pos hq, List.lookup_cons]
    · simp only [List.any_cons, hq, Bool.false_or] at hany
      have hq' : (k == a) = false := by
        have h1 : a ≠ k := by simpa using hq
        simpa using fun h => h1 h.symm
      simp only [List.map_cons, if_neg hq, List.lookup_cons, hq']
      exact ih hany

theorem lookup_append_singleton_self [BEq α] [LawfulBEq α] (d : List (α × β)) (k : α) (v : β)
    (hany : d.any (fun q => q.1 == k) = false) :
    (d ++ [(k, v)]).lookup k = some v := by
  induction d with
  | nil => simp [List.lookup_cons]
  | cons q d ih =>
    obtain ⟨a, b⟩ := q
    simp only [List.any_cons, Bool.or_eq_false_iff] at hany
    have hq' : (k == a) = false := by
      have h1 : a ≠ k := by simpa using hany.1
      simpa using fun h => h1 h.symm
    simp only [List.cons_append, List.lookup_cons, hq']
    exact ih hany.2

theorem lookup_append_singleton_ne [BEq α] [LawfulBEq α] (d : List (α × β)) (k : α) (v : β)
    (k' : α) (hne : k' ≠ k) :
    (d ++ [(k, v)]).lookup k' = d.lookup k' := by
  have hk : (k' == k) = false := by simpa using hne
  induction d with
  | nil => simp [List.lookup_cons, hk]
  | cons q d ih =>
    obtain ⟨a, b⟩ := q
    simp only [List.cons_append, List.lookup_cons]
    cases hkq : k' == a
    · exact ih
    · rfl

theorem lookup_dictInsert_self [BEq α] [LawfulBEq α] (d : List (α × β)) (k : α) (v : β) :
    (dictInsert d k v).lookup k = some v := by
  unfold dictInsert
  split
  · exact lookup_map_overwrite_self d k v (by assumption)
  · rename_i hcond
    exact lookup_append_singleton_self d k v
      (by simp only [Bool.not_eq_true] at hcond; exact hcond)

theorem lookup_dictInsert_ne [BEq α] [LawfulBEq α] (d : List (α × β)) (k : α) (v : β)
    (k' : α) (hne : k' ≠ k) :
    (dictInsert d k v).lookup k' = d.lookup k' := by
  unfold dictInsert
  split
  · exact lookup_map_overwrite_ne d k v k' hne
  · exact lookup_append_singleton_ne d k v k' hne

theorem mem_dictInsert [BEq α] (d : List (α × β)) (k : α) (v : β) (x : α × β)
    (hx : x ∈ dictInsert d k v) : x ∈ d ∨ x = (k, v) := by
  unfold dictInsert at hx
  split at hx
  · rcases List.mem_map.mp hx with ⟨p, hp, hpx⟩
    by_cases hpk : p.1 == k
    · right; rw [if_pos hpk] at hpx; exact hpx.symm
    · left; rw [if_neg hpk] at hpx; exact hpx ▸ hp
  · rcases List.mem_append.mp hx with h | h
    · exact Or.inl h
    · exact Or.inr (List.mem_singleton.mp h)

theorem sortedInsert_perm (key : α → String) (x : α) (l : List α) :
    List.Perm (sortedInsert key x l) (x :: l) := by
  induction l with
  | nil => exact List.Perm.refl _
  | cons y ys ih =>
    unfold sortedInsert
    split
    · exact List.Perm.refl _
    · exact (List.Perm.cons y ih).trans (List.Perm.swap x y ys)

theorem pySorted_perm (key : α → String) (l : List α) :
    List.Perm (pySorted key l) l := by
  induction l with
  | nil => exact List.Perm.refl _
  | cons x xs ih =>
    exact (sortedInsert_perm key x (pySorted key xs)).trans (List.Perm.cons x ih)

theorem mem_pySorted (key : α → String) (l : List α) (x : α) :
    x ∈ pySorted key l ↔ x ∈ l :=
  (pySorted_perm key l).mem_iff

theorem chosen_eq_candidate [BEq α] [LawfulBEq α] (a b : α) :
    (if a == b then a else b) = b := by
  cases h : a == b
  · rfl
  · simpa using LawfulBEq.eq_of_beq h

theorem contains_append_singleton_ne [BEq α] [LawfulBEq α] (l : List α) (a x : α)
    (hne : x ≠ a) : (l ++ [a]).contains x = l.contains x := by
  simp only [List.contains, List.elem_eq_mem, List.mem_append, List.mem_singleton]
  simp [hne]

theorem chosen_eq_candidate_prop (a b : String) : (if a = b then a else b) = b := by
  by_cases h : a = b <;> simp [h]

theorem classifyStep_lookup_ne (env : Env) (mn : String)
    (A : Members × List (Nat × String) × GenState) (mem : ModuleMember) (n : String)
    (hne : mem.name ≠ n) :
    ((classifyStep env mn A mem).1.classes.lookup n = A.1.classes.lookup n) ∧
    ((classifyStep env mn A mem).1.functions.lookup n = A.1.functions.lookup n) ∧
    ((classifyStep env mn A mem).1.submodules.lookup n = A.1.submodules.lookup n) ∧
    ((classifyStep env mn A mem).1.vars.lookup n = A.1.vars.lookup n) := by
  have hne' : n ≠ mem.name := Ne.symm hne
  cases h1 : pyStartswith mem.name "_"
  · cases h2 : mem.accessible
    · simp [classifyStep, h1, h2]
    · cases hv : mem.val with
      | clsV c =>
        cases h3 : classOwned mn c
        · simp [classifyStep, h1, h2, hv, h3]
        · cases h4 : A.2.1.any (fun p => p.1 == c.pyId)
          · simp [classifyStep, h1, h2, hv, h3, h4, chosen_eq_candidate,
              chosen_eq_candidate_prop, lookup_dictInsert_ne _ _ _ _ hne']
          · simp [classifyStep, h1, h2, hv, h3, h4]
      | modRef mid =>
        cases h3 : submoduleQualifies env mn mid
        · simp [classifyStep, h1, h2, hv, h3]
        · simp [classifyStep, h1, h2, hv, h3, lookup_dictInsert_ne _ _ _ _ hne']
      | funcV f =>
        cases h3 : funcOwned mn f
        · simp [classifyStep, h1, h2, hv, h3]
        · simp [classifyStep, h1, h2, hv, h3, lookup_dictInsert_ne _ _ _ _ hne']
      | plainV v =>
        simp [classifyStep, h1, h2, hv, lookup_dictInsert_ne _ _ _ _ hne']
  · simp [classifyStep, h1]

theorem foldl_classify_lookup_ne (env : Env) (mn : String) (ms : List ModuleMember)
    (A : Members × List (Nat × String) × GenState) (n : String)
    (h : ∀ x ∈ ms, x.name ≠ n) :
    ((ms.foldl (classifyStep env mn) A).1.classes.lookup n = A.1.classes.lookup n) ∧
    ((ms.foldl (classifyStep env mn) A).1.functions.lookup n = A.1.functions.lookup n) ∧
    ((ms.foldl (classifyStep env mn) A).1.submodules.lookup n = A.1.submodules.lookup n) ∧
    ((ms.foldl (classifyStep env mn) A).1.vars.lookup n = A.1.vars.lookup n) := by
  induction ms generalizing A with
  | nil => exact ⟨rfl, rfl, rfl, rfl⟩
  | cons x ms ih =>
    have hx := classifyStep_lookup_ne env mn A x n (h x (List.mem_cons_self x ms))
    have hrest := ih (classifyStep env mn A x)
      (fun y hy => h y (List.mem_cons_of_mem x hy))
    exact ⟨hrest.1.trans hx.1, hrest.2.1.trans hx.2.1,
      hrest.2.2.1.trans hx.2.2.1, hrest.2.2.2.trans hx.2.2.2⟩

theorem foldl_classify_char (env : Env) (mn : String) (l1 l2 : List ModuleMember)
    (mem : ModuleMember) (A0 : Members × List (Nat × String) × GenState)
    (hl1 : ∀ x ∈ l1, x.name ≠ mem.name) (hl2 : ∀ x ∈ l2, x.name ≠ mem.name)
    (hacc : mem.accessible = true) (hpriv : pyStartswith mem.name "_" = false)
    (hc : A0.1.classes.lookup mem.name = none)
    (hf : A0.1.functions.lookup mem.name = none)
    (hs : A0.1.submodules.lookup mem.name = none)
    (hv : A0.1.vars.lookup mem.name = none) :
    (∀ v, mem.val = MValue.plainV v →
      (((l1 ++ mem :: l2).foldl (classifyStep env mn) A0).1.classes.lookup mem.name = none) ∧
      (((l1 ++ mem :: l2).foldl (classifyStep env mn) A0).1.functions.lookup mem.name = none) ∧
      (((l1 ++ mem :: l2).foldl (classifyStep env mn) A0).1.submodules.lookup mem.name = none) ∧
      (((l1 ++ mem :: l2).foldl (classifyStep env mn) A0).1.vars.lookup mem.name = some v)) ∧
    (∀ f, mem.val = MValue.funcV f →
      (((l1 ++ mem :: l2).foldl (classifyStep env mn) A0).1.classes.lookup mem.name = none) ∧
      (((l1 ++ mem :: l2).foldl (classifyStep env mn) A0).1.functions.lookup mem.name =
        (if funcOwned mn f then some f else none)) ∧
      (((l1 ++ mem :: l2).foldl (classifyStep env mn) A0).1.submodules.lookup mem.name = none) ∧
      (((l1 ++ mem :: l2).foldl (classifyStep env mn) A0).1.vars.lookup mem.name = none)) ∧
    (∀ mid, mem.val = MValue.modRef mid →
      (((l1 ++ mem :: l2).foldl (classifyStep env mn) A0).1.classes.lookup mem.name = none) ∧
      (((l1 ++ mem :: l2).foldl (classifyStep env mn) A0).1.functions.lookup mem.name = none) ∧
      (((l1 ++ mem :: l2).foldl (classifyStep env mn) A0).1.submodules.lookup mem.name =
        (if submoduleQualifies env mn mid then some mid else none)) ∧
      (((l1 ++ mem :: l2).foldl (classifyStep env mn) A0).1.vars.lookup mem.name = none)) ∧
    (∀ c, mem.val = MValue.clsV c →
      (((l1 ++ mem :: l2).foldl (classifyStep env mn) A0).1.functions.lookup mem.name = none) ∧
      (((l1 ++ mem :: l2).foldl (classifyStep env mn) A0).1.submodules.lookup mem.name = none) ∧
      (((l1 ++ mem :: l2).foldl (classifyStep env mn) A0).1.vars.lookup mem.name = none) ∧
      (classOwned mn c = false →
        ((l1 ++ mem :: l2).foldl (classifyStep env mn) A0).1.classes.lookup mem.name = none) ∧
      ((((l1 ++ mem :: l2).foldl (classifyStep env mn) A0).1.classes.lookup mem.name = none) ∨
       (((l1 ++ mem :: l2).foldl (classifyStep env mn) A0).1.classes.lookup mem.name = some c))) := by
  have hfold : (l1 ++ mem :: l2).foldl (classifyStep env mn) A0
      = l2.foldl (classifyStep env mn)
          (classifyStep env mn (l1.foldl (classifyStep env mn) A0) mem) := by
    rw [List.foldl_append, List.foldl_cons]
  rw [hfold]
  have h1 := foldl_classify_lookup_ne env mn l1 A0 mem.name hl1
  have hc1 := h1.1.trans hc
  have hf1 := h1.2.1.trans hf
  have hs1 := h1.2.2.1.trans hs
  have hv1 := h1.2.2.2.trans hv
  generalize hA1 : l1.foldl (classifyStep env mn) A0 = A1 at hc1 hf1 hs1 hv1 ⊢
  have h2 := foldl_classify_lookup_ne env mn l2 (classifyStep env mn A1 mem) mem.name hl2
  refine ⟨?_, ?_, ?_, ?_⟩
  · intro v hval
    have hB : classifyStep env mn A1 mem =
        ({ A1.1 with vars := dictInsert A1.1.vars mem.name v }, A1.2.1, A1.2.2) := by
      simp [classifyStep, hpriv, hacc, hval]
    refine ⟨?_, ?_, ?_, ?_⟩
    · rw [h2.1, hB]; exact hc1
    · rw [h2.2.1, hB]; exact hf1
    · rw [h2.2.2.1, hB]; exact hs1
    · rw [h2.2.2.2, hB]; exact lookup_dictInsert_self _ _ _
  · intro f hval
    rcases Bool.eq_false_or_eq_true (funcOwned mn f) with h3 | h3
    · have hB : classifyStep env mn A1 mem =
          ({ A1.1 with functions := dictInsert A1.1.functions mem.name f },
            A1.2.1, A1.2.2) := by
        simp [classifyStep, hpriv, hacc, hval, h3]
      refine ⟨?_, ?_, ?_, ?_⟩
      · rw [h2.1, hB]; exact hc1
      · rw [h2.2.1, hB, h3]
        simpa using lookup_dictInsert_self A1.1.functions mem.name f
      · rw [h2.2.2.1, hB]; exact hs1
      · rw [h2.2.2.2, hB]; exact hv1
    · have hB : classifyStep env mn A1 mem = A1 := by
        simp [classifyStep, hpriv, hacc, hval, h3]
      refine ⟨?_, ?_, ?_, ?_⟩
      · rw [h2.1, hB]; exact hc1
      · rw [h2.2.1, hB, h3]; simpa using hf1
      · rw [h2.2.2.1, hB]; exact hs1
      · rw [h2.2.2.2, hB]; exact hv1
  · intro mid hval
    rcases Bool.eq_false_or_eq_true (submoduleQualifies env mn mid) with h3 | h3
    · have hB : classifyStep env mn A1 mem =
          ({ A1.1 with submodules := dictInsert A1.1.submodules mem.name mid },
            A1.2.1, A1.2.2) := by
        simp [classifyStep, hpriv, hacc, hval, h3]
      refine ⟨?_, ?_, ?_, ?_⟩
      · rw [h2.1, hB]; exact hc1
      · rw [h2.2.1, hB]; exact hf1
      · rw [h2.2.2.1, hB, h3]
        simpa using lookup_dictInsert_self A1.1.submodules mem.name mid
      · rw [h2.2.2.2, hB]; exact hv1
    · have hB : classifyStep env mn A1 mem = A1 := by
        simp [classifyStep, hpriv, hacc, hval, h3]
      refine ⟨?_, ?_, ?_, ?_⟩
      · rw [h2.1, hB]; exact hc1
      · rw [h2.2.1, hB]; exact hf1
      · rw [h2.2.2.1, hB, h3]; simpa using hs1
      · rw [h2.2.2.2, hB]; exact hv1
  · intro c hval
    rcases Bool.eq_false_or_eq_true (classOwned mn c) with h3 | h3
    · rcases Bool.eq_false_or_eq_true (A1.2.1.any (fun p => p.1 == c.pyId)) with h4 | h4
      · have hB : classifyStep env mn A1 mem = A1 := by
          simp [classifyStep, hpriv, hacc, hval, h3, h4]
        refine ⟨?_, ?_, ?_, ?_, ?_⟩
        · rw [h2.2.1, hB]; exact hf1
        · rw [h2.2.2.1, hB]; exact hs1
        · rw [h2.2.2.2, hB]; exact hv1
        · intro h3'; rw [h3'] at h3; cases h3
        · left; rw [h2.1, hB]; exact hc1
      · have hB : classifyStep env mn A1 mem =
            ({ A1.1 with classes := dictInsert A1.1.classes mem.name c },
              A1.2.1 ++ [(c.pyId, mem.name)],
              { A1.2.2 with
                classNameMapping := dictInsert A1.2.2.classNameMapping c.pyId mem.name }) := by
          simp [classifyStep, hpriv, hacc, hval, h3, h4, chosen_eq_candidate,
            chosen_eq_candidate_prop]
        refine ⟨?_, ?_, ?_, ?_, ?_⟩
        · rw [h2.2.1, hB]; exact hf1
        · rw [h2.2.2.1, hB]; exact hs1
        · rw [h2.2.2.2, hB]; exact hv1
        · intro h3'; rw [h3'] at h3; cases h3
        · right; rw [h2.1, hB]
          simpa using lookup_dictInsert_self A1.1.classes mem.name c
    · have hB : classifyStep env mn A1 mem = A1 := by
        simp [classifyStep, hpriv, hacc, hval, h3]
      refine ⟨?_, ?_, ?_, ?_, ?_⟩
      · rw [h2.2.1, hB]; exact hf1
      · rw [h2.2.2.1, hB]; exact hs1
      · rw [h2.2.2.2, hB]; exact hv1
      · intro _; rw [h2.1, hB]; exact hc1
      · left; rw [h2.1, hB]; exact hc1

theorem classifyStep_consistent (env : Env) (mn : String)
    (A : Members × List (Nat × String) × GenState) (mem : ModuleMember)
    (hdup : ∀ p ∈ A.1.classes, A.2.1.any (fun q => q.1 == p.2.pyId) = true)
    (hmap : ∀ p ∈ A.1.classes, A.2.2.classNameMapping.lookup p.2.pyId = some p.1) :
    (∀ p ∈ (classifyStep env mn A mem).1.classes,
      (classifyStep env mn A mem).2.1.any (fun q => q.1 == p.2.pyId) = true) ∧
    (∀ p ∈ (classifyStep env mn A mem).1.classes,
      (classifyStep env mn A mem).2.2.classNameMapping.lookup p.2.pyId = some p.1) := by
  cases h1 : pyStartswith mem.name "_"
  · cases h2 : mem.accessible
    · have hB : classifyStep env mn A mem = A := by simp [classifyStep, h1, h2]
      rw [hB]; exact ⟨hdup, hmap⟩
    · cases hval : mem.val with
      | clsV c =>
        rcases Bool.eq_false_or_eq_true (classOwned mn c) with h3 | h3
        · rcases Bool.eq_false_or_eq_true (A.2.1.any (fun p => p.1 == c.pyId)) with h4 | h4
          · have hB : classifyStep env mn A mem = A := by
              simp [classifyStep, h1, h2, hval, h3, h4]
            rw [hB]; exact ⟨hdup, hmap⟩
          · have hB : classifyStep env mn A mem =
                ({ A.1 with classes := dictInsert A.1.classes mem.name c },
                  A.2.1 ++ [(c.pyId, mem.name)],
                  { A.2.2 with
                    classNameMapping :=
                      dictInsert A.2.2.classNameMapping c.pyId mem.name }) := by
              simp [classifyStep, h1, h2, hval, h3, h4, chosen_eq_candidate,
                chosen_eq_candidate_prop]
            rw [hB]
            constructor
            · intro p hp
              rcases mem_dictInsert _ _ _ _ hp with hold | hnew
              · rw [List.any_append, hdup p hold]
                rfl
              · rw [hnew]
                simp [List.any_append]
            · intro p hp
              rcases mem_dictInsert _ _ _ _ hp with hold | hnew
              · have hne : p.2.pyId ≠ c.pyId := by
                  intro he
                  rw [← he] at h4
                  rw [hdup p hold] at h4
                  cases h4
                rw [lookup_dictInsert_ne _ _ _ _ hne]
                exact hmap p hold
              · rw [hnew]
                exact lookup_dictInsert_self _ _ _
        · have hB : classifyStep env mn A mem = A := by
            simp [classifyStep, h1, h2, hval, h3]
          rw [hB]; exact ⟨hdup, hmap⟩
      | modRef mid =>
        rcases Bool.eq_false_or_eq_true (submoduleQualifies env mn mid) with h3 | h3
        · have hB : classifyStep env mn A mem =
              ({ A.1 with submodules := dictInsert A.1.submodules mem.name mid },
                A.2.1, A.2.2) := by
            simp [classifyStep, h1, h2, hval, h3]
          rw [hB]; exact ⟨hdup, hmap⟩
        · have hB : classifyStep env mn A mem = A := by
            simp [classifyStep, h1, h2, hval, h3]
          rw [hB]; exact ⟨hdup, hmap⟩
      | funcV f =>
        rcases Bool.eq_false_or_eq_true (funcOwned mn f) with h3 | h3
        · have hB : classifyStep env mn A mem =
              ({ A.1 with functions := dictInsert A.1.functions mem.name f },
                A.2.1, A.2.2) := by
            simp [classifyStep, h1, h2, hval, h3]
          rw [hB]; exact ⟨hdup, hmap⟩
        · have hB : classifyStep env mn A mem = A := by
            simp [classifyStep, h1, h2, hval, h3]
          rw [hB]; exact ⟨hdup, hmap⟩
      | plainV v =>
        have hB : classifyStep env mn A mem =
            ({ A.1 with vars := dictInsert A.1.vars mem.name v }, A.2.1, A.2.2) := by
          simp [classifyStep, h1, h2, hval]
        rw [hB]; exact ⟨hdup, hmap⟩
  · have hB : classifyStep env mn A mem = A := by simp [classifyStep, h1]
    rw [hB]; exact ⟨hdup, hmap⟩

theorem foldl_classify_consistent (env : Env) (mn : String) (ms : List ModuleMember)
    (A : Members × List (Nat × String) × GenState)
    (hdup : ∀ p ∈ A.1.classes, A.2.1.any (fun q => q.1 == p.2.pyId) = true)
    (hmap : ∀ p ∈ A.1.classes, A.2.2.classNameMapping.lookup p.2.pyId = some p.1) :
    ∀ p ∈ (ms.foldl (classifyStep env mn) A).1.classes,
      (ms.foldl (classifyStep env mn) A).2.2.classNameMapping.lookup p.2.pyId = some p.1 := by
  induction ms generalizing A with
  | nil => exact hmap
  | cons mem ms ih =>
    have hstep := classifyStep_consistent env mn A mem hdup hmap
    exact ih (classifyStep env mn A mem) hstep.1 hstep.2

/-- Every class recorded by `get_module_members` has its chosen name freshly
written into `class_name_mapping` under its identity: the mapping entry the
later alias check consults always equals the very name being processed. -/
theorem getModuleMembers_consistent (env : Env) (m : ModuleObj) (st : GenState) :
    ∀ p ∈ (getModuleMembers env m st).1.classes,
      (getModuleMembers env m st).2.classNameMapping.lookup p.2.pyId = some p.1 := by
  intro p hp
  exact foldl_classify_consistent env m.mname (pySorted (fun mm => mm.name) m.members)
    (({} : Members), ([] : List (Nat × String)), st)
    (by intro q hq; cases hq) (by intro q hq; cases hq) p hp

theorem members_split (m : ModuleObj) (mem : ModuleMember) (hmem : mem ∈ m.members)
    (hnodup : (m.members.map ModuleMember.name).Nodup) :
    ∃ l1 l2, pySorted (fun mm => mm.name) m.members = l1 ++ mem :: l2 ∧
      (∀ x ∈ l1, x.name ≠ mem.name) ∧ (∀ x ∈ l2, x.name ≠ mem.name) := by
  have hmemS : mem ∈ pySorted (fun mm => mm.name) m.members :=
    (mem_pySorted _ _ _).mpr hmem
  obtain ⟨l1, l2, hS⟩ := List.append_of_mem hmemS
  have hnodupS : ((pySorted (fun mm => mm.name) m.members).map ModuleMember.name).Nodup :=
    (((pySorted_perm (fun mm => mm.name) m.members).map ModuleMember.name).nodup_iff).mpr hnodup
  have hmid : (ModuleMember.name mem :: (l1 ++ l2).map ModuleMember.name).Nodup := by
    rw [hS] at hnodupS
    simpa [List.nodup_middle] using hnodupS
  have hnotin : mem.name ∉ (l1 ++ l2).map ModuleMember.name :=
    (List.nodup_cons.mp hmid).1
  refine ⟨l1, l2, hS, ?_, ?_⟩
  · intro x hx hxe
    exact hnotin (List.mem_map.mpr ⟨x, List.mem_append.mpr (Or.inl hx), hxe⟩)
  · intro x hx hxe
    exact hnotin (List.mem_map.mpr ⟨x, List.mem_append.mpr (Or.inr hx), hxe⟩)

theorem isSome_option_map (f : α → β) (o : Option α) : (o.map f).isSome = o.isSome := by
  cases o <;> rfl

theorem startswith_dot_length (s mn : String) (h : pyStartswith s (mn ++ ".") = true) :
    mn.length + 1 ≤ s.length := by
  unfold pyStartswith at h
  have hp := List.isPrefixOf_iff_prefix.mp h
  have hl := hp.length_le
  rw [String.data_append] at hl
  rw [List.length_append] at hl
  have hgoal : mn.data.length + 1 ≤ s.data.length := by simpa using hl
  exact hgoal

theorem classifyStep_submodules_sound (env : Env) (mn : String)
    (A : Members × List (Nat × String) × GenState) (mem : ModuleMember)
    (hA : ∀ p ∈ A.1.submodules, submoduleQualifies env mn p.2 = true) :
    ∀ p ∈ (classifyStep env mn A mem).1.submodules,
      submoduleQualifies env mn p.2 = true := by
  cases h1 : pyStartswith mem.name "_"
  · cases h2 : mem.accessible
    · have hB : classifyStep env mn A mem = A := by simp [classifyStep, h1, h2]
      rw [hB]; exact hA
    · cases hval : mem.val with
      | clsV c =>
        rcases Bool.eq_false_or_eq_true (classOwned mn c) with h3 | h3
        · rcases Bool.eq_false_or_eq_true (A.2.1.any (fun p => p.1 == c.pyId)) with h4 | h4
          · have hB : classifyStep env mn A mem = A := by
              simp [classifyStep, h1, h2, hval, h3, h4]
            rw [hB]; exact hA
          · have hB : (classifyStep env mn A mem).1.submodules = A.1.submodules := by
              simp [classifyStep, h1, h2, hval, h3, h4]
            rw [hB]; exact hA
        · have hB : classifyStep env mn A mem = A := by
            simp [classifyStep, h1, h2, hval, h3]
          rw [hB]; exact hA
      | modRef mid =>
        rcases Bool.eq_false_or_eq_true (submoduleQualifies env mn mid) with h3 | h3
        · have hB : (classifyStep env mn A mem).1.submodules =
              dictInsert A.1.submodules mem.name mid := by
            simp [classifyStep, h1, h2, hval, h3]
          rw [hB]
          intro p hp
          rcases mem_dictInsert _ _ _ _ hp with hold | hnew
          · exact hA p hold
          · rw [hnew]; exact h3
        · have hB : classifyStep env mn A mem = A := by
            simp [classifyStep, h1, h2, hval, h3]
          rw [hB]; exact hA
      | funcV f =>
        rcases Bool.eq_false_or_eq_true (funcOwned mn f) with h3 | h3 <;>
          · have hB : (classifyStep env mn A mem).1.submodules = A.1.submodules := by
              simp [classifyStep, h1, h2, hval, h3]
            rw [hB]; exact hA
      | plainV v =>
        have hB : (classifyStep env mn A mem).1.submodules = A.1.submodules := by
          simp [classifyStep, h1, h2, hval]
        rw [hB]; exact hA
  · have hB : classifyStep env mn A mem = A := by simp [classifyStep, h1]
    rw [hB]; exact hA

theorem foldl_classify_submodules_sound (env : Env) (mn : String)
    (ms : List ModuleMember) (A : Members × List (Nat × String) × GenState)
    (hA : ∀ p ∈ A.1.submodules, submoduleQualifies env mn p.2 = true) :
    ∀ p ∈ (ms.foldl (classifyStep env mn) A).1.submodules,
      submoduleQualifies env mn p.2 = true := by
  induction ms generalizing A with
  | nil => exact hA
  | cons mem ms ih =>
    exact ih (classifyStep env mn A mem)
      (classifyStep_submodules_sound env mn A mem hA)

theorem getModuleMembers_submodules_sound (env : Env) (m : ModuleObj) (st : GenState) :
    ∀ p ∈ (getModuleMembers env m st).1.submodules,
      submoduleQualifies env m.mname p.2 = true := by
  intro p hp
  exact foldl_classify_submodules_sound env m.mname
    (pySorted (fun mm => mm.name) m.members)
    (({} : Members), ([] : List (Nat × String)), st)
    (by intro q hq; cases hq) p hp

theorem goSubmodules_isSome (env : Env)
    (recur : ModuleObj → String → GenState → RunOut → Option (GenState × RunOut))
    (subs : List (String × Nat))
    (h : ∀ p ∈ subs, ∀ st out, (recur (env p.2) (env p.2).mname st out).isSome = true) :
    ∀ st out lines, (goSubmodules env recur subs st out lines).isSome = true := by
  induction subs with
  | nil => intro st out lines; simp [goSubmodules]
  | cons q rest ih =>
    intro st out lines
    obtain ⟨sname, mid⟩ := q
    have hrec := h (sname, mid) (List.mem_cons_self _ _) st out
    rcases hx : recur (env mid) (env mid).mname st out with _ | ⟨st', out'⟩
    · rw [hx] at hrec; simp at hrec
    · simp only [goSubmodules, hx]
      exact ih (fun q hq => h q (List.mem_cons_of_mem _ hq)) st' out' _

theorem createModuleStructure_terminates (env : Env) (L : Nat)
    (henv : ∀ n, (env n).mname.length ≤ L) :
    ∀ (fuel : Nat) (m : ModuleObj) (basePath moduleName : String)
      (st : GenState) (out : RunOut),
      m.mname.length ≤ L → L + 2 ≤ fuel + m.mname.length →
      (createModuleStructure env fuel m basePath moduleName st out).isSome = true := by
  intro fuel
  induction fuel with
  | zero =>
    intro m _ _ _ _ hm hf
    omega
  | succ fuel ih =>
    intro m basePath moduleName st out hm hf
    rcases Bool.eq_false_or_eq_true
      (st.processedModules.contains (basePath ++ "/" ++ moduleName)) with hkey | hkey
    · simp only [createModuleStructure, hkey, if_true]
      rfl
    · simp only [createModuleStructure, hkey, Bool.false_eq_true, if_false]
      have hsound := getModuleMembers_submodules_sound env m
        { st with processedModules :=
            setAdd st.processedModules (basePath ++ "/" ++ moduleName) }
      have hgo := goSubmodules_isSome env
        (fun sub subName st' out' => createModuleStructure env fuel sub
          (basePath ++ "/" ++ sanitizeName (lastSegment moduleName)) subName st' out')
        (getModuleMembers env m
          { st with processedModules :=
              setAdd st.processedModules (basePath ++ "/" ++ moduleName) }).1.submodules
        (by
          intro p hp st' out'
          have hq := hsound p hp
          unfold submoduleQualifies at hq
          simp only [Bool.and_eq_true] at hq
          have hlen := startswith_dot_length (env p.2).mname m.mname hq.1.2
          exact ih (env p.2)
            (basePath ++ "/" ++ sanitizeName (lastSegment moduleName))
            (env p.2).mname st' out' (henv p.2) (by
              have := henv p.2
              omega))
      rw [isSome_option_map]
      exact hgo _ _ _

theorem lookup_applyWrites (files : List (String × String)) (ws : List FileWrite)
    (p : String) :
    (applyWrites ⟨files⟩ ws).files.lookup p =
      (match wLast ws p with
       | some c => some c
       | none => files.lookup p) := by
  induction ws generalizing files with
  | nil => simp [applyWrites, wLast]
  | cons w rest ih =>
    have hstep : applyWrites ⟨files⟩ (w :: rest) =
        applyWrites ⟨dictInsert files w.path w.content⟩ rest := by
      simp [applyWrites]
    rw [hstep, ih]
    cases hw : wLast rest p with
    | some c => simp [wLast, hw]
    | none =>
      simp only [wLast, hw]
      by_cases hp : p = w.path
      · subst hp
        rw [lookup_dictInsert_self]
        simp
      · rw [lookup_dictInsert_ne _ _ _ _ hp]
        have hb : (w.path == p) = false := by
          simpa using fun h => hp h.symm
        simp [hb]

theorem lookup_none_of_filter_out (files : List (String × String)) (d p : String)
    (hp : pathUnder d p = true) :
    (files.filter (fun pr => !pathUnder d pr.1)).lookup p = none := by
  induction files with
  | nil => rfl
  | cons q files ih =>
    obtain ⟨qp, qc⟩ := q
    rcases Bool.eq_false_or_eq_true (pathUnder d qp) with hq | hq
    · simp only [List.filter_cons, hq, Bool.not_true, if_false]
      exact ih
    · have hne : (p == qp) = false := by
        simp only [beq_eq_false_iff_ne]
        intro he
        subst he
        rw [hp] at hq
        cases hq
      simp only [List.filter_cons, hq, Bool.not_false, if_true]
      rw [List.lookup_cons]
      simp only [hne]
      exact ih

theorem lookup_none_of_any_false (files : List (String × String)) (d p : String)
    (hex : files.any (fun pr => pathUnder d pr.1) = false) (hp : pathUnder d p = true) :
    files.lookup p = none := by
  induction files with
  | nil => rfl
  | cons q files ih =>
    obtain ⟨qp, qc⟩ := q
    simp only [List.any_cons, Bool.or_eq_false_iff] at hex
    have hne : (p == qp) = false := by
      simp only [beq_eq_false_iff_ne]
      intro he
      subst he
      rw [hp] at hex
      cases hex.1
    rw [List.lookup_cons]
    simp only [hne]
    exact ih hex.2

theorem dumpModule_outputTree (env : Env) (fuel : Nat) (m : ModuleObj)
    (outputDir : String) (fs : FSState) (p : String) :
    (dumpModule env fuel m outputDir true false false fs).map
      (fun r => r.map (fun g => outputTreeAt outputDir g p)) =
    Except.ok ((createModuleStructure env fuel m outputDir m.mname {} {}).map
      (fun r => if pathUnder outputDir p then wLast r.2.writes p else none)) := by
  have key : ∀ files : List (String × String),
      (∀ q : String, pathUnder outputDir q = true → files.lookup q = none) →
      (Except.ok (runGeneration env fuel m outputDir ⟨files⟩) :
          Except String (Option FSState)).map
        (fun r => r.map (fun g => outputTreeAt outputDir g p)) =
      Except.ok ((createModuleStructure env fuel m outputDir m.mname {} {}).map
        (fun r => if pathUnder outputDir p then wLast r.2.writes p else none)) := by
    intro files hnone
    unfold runGeneration
    rcases hcr : createModuleStructure env fuel m outputDir m.mname {} {}
      with _ | ⟨st', out'⟩
    · rfl
    · simp only [Except.map, Option.map]
      rcases Bool.eq_false_or_eq_true (pathUnder outputDir p) with hpu | hpu
      · simp only [outputTreeAt, hpu, if_true]
        rw [lookup_applyWrites]
        cases hw : wLast out'.writes p with
        | some c => simp [hw]
        | none => simp [hw, hnone p hpu]
      · simp [outputTreeAt, hpu]
  unfold dumpModule
  rcases Bool.eq_false_or_eq_true (fs.files.any (fun pr => pathUnder outputDir pr.1))
    with hex | hex
  · simp only [hex, Bool.true_and, if_true]
    exact key (fs.files.filter (fun pr => !pathUnder outputDir pr.1))
      (fun q hq => lookup_none_of_filter_out fs.files outputDir q hq)
  · simp only [hex, Bool.false_and, if_false]
    exact key fs.files (fun q hq => lookup_none_of_any_false fs.files outputDir q hex hq)

end PyiGen

namespace PyiGen

/-! ### Claim theorems -/

/-- Claim C1 (code_bug evaluation): in module `m`, the class declared as
`Widget` but reached only under the alias `Alias` is recorded under the
canonical name `Alias` — `chosen_name = class_actual_name if
class_actual_name == name else name` always yields the candidate name —
whereas the claimed rule (and the source comment "prefer class.__name__ over
alias") chooses `Widget`. -/
theorem c1_canonical_name_eval :
    ((getModuleMembers envTrivial modAlias {}).2.classNameMapping.lookup 5 = some "Alias") ∧
    ((getModuleMembers envTrivial modAlias {}).1.classes.map (fun p => p.1) = ["Alias"]) ∧
    chosenNameClaim "Widget" "Alias" = "Widget" := by
  refine ⟨?_, ?_, ?_⟩ <;> rfl

/-- Claim C2 (counterexample): the accessible, non-underscore member `Foo` of
module `m` is a class owned by `othermod`, and the classifier places it in
none of the four categories, refuting totality of the classification. -/
theorem c2_totality_counterexample :
    pyStartswith "Foo" "_" = false ∧
    modForeign.members.map (fun mm => (mm.name, mm.accessible)) = [("Foo", true)] ∧
    catCount (getModuleMembers envTrivial modForeign {}).1 "Foo" = 0 := by
  refine ⟨?_, ?_, ?_⟩ <;> rfl

/-- Claim C3 (counterexample): in the `pkg` run the class identity 7 is
reachable as `pkg.a.Widget` and as `pkg.a.sub.W2`; exactly one descriptor
block is emitted, but the other name yields NO alias line even though the
sanitized names `W2` and `Widget` differ — the claim's promised line
`W2 = Widget` appears nowhere in the output. -/
theorem c3_alias_counterexample :
    runC3AllLines.count "class Widget:" = 1 ∧
    sanitizeName "W2" ≠ sanitizeName "Widget" ∧
    runC3AllLines.contains "W2 = Widget" = false := by
  refine ⟨?_, ?_, ?_⟩
  · rfl
  · decide
  · rfl

/-- Claim C2 (amended): classification is exclusive — an accessible,
non-underscore member lands in at most one of the four categories — and every
accessible value that is neither a class, nor a module, nor callable is
recorded as a variable; but it is not total: a class that fails the
module-ownership test, a callable that fails the function-ownership test, and
a module that fails the submodule test are placed in NO category at all. -/
theorem c2_classification_amended (env : Env) (m : ModuleObj) (st : GenState)
    (mem : ModuleMember) (hmem : mem ∈ m.members)
    (hnodup : (m.members.map ModuleMember.name).Nodup)
    (hacc : mem.accessible = true) (hpriv : pyStartswith mem.name "_" = false) :
    catCount (getModuleMembers env m st).1 mem.name ≤ 1 ∧
    (∀ v, mem.val = MValue.plainV v →
      (getModuleMembers env m st).1.vars.lookup mem.name = some v) ∧
    (∀ c, mem.val = MValue.clsV c → classOwned m.mname c = false →
      catCount (getModuleMembers env m st).1 mem.name = 0) ∧
    (∀ f, mem.val = MValue.funcV f → funcOwned m.mname f = false →
      catCount (getModuleMembers env m st).1 mem.name = 0) ∧
    (∀ mid, mem.val = MValue.modRef mid → submoduleQualifies env m.mname mid = false →
      catCount (getModuleMembers env m st).1 mem.name = 0) := by
  obtain ⟨l1, l2, hS, hl1, hl2⟩ := members_split m mem hmem hnodup
  have char := foldl_classify_char env m.mname l1 l2 mem
    (({} : Members), ([] : List (Nat × String)), st) hl1 hl2 hacc hpriv rfl rfl rfl rfl
  have hG : (getModuleMembers env m st).1 =
      ((l1 ++ mem :: l2).foldl (classifyStep env m.mname)
        (({} : Members), ([] : List (Nat × String)), st)).1 := by
    unfold getModuleMembers
    rw [hS]
  rw [hG]
  refine ⟨?_, ?_, ?_, ?_, ?_⟩
  · cases hval : mem.val with
    | clsV c =>
      obtain ⟨hf', hs', hv', hcf, hcc⟩ := char.2.2.2 c hval
      rcases hcc with hcc | hcc <;>
        · unfold catCount
          rw [hf', hs', hv', hcc]
          simp
    | modRef mid =>
      obtain ⟨hc', hf', hs', hv'⟩ := char.2.2.1 mid hval
      unfold catCount
      rw [hc', hf', hs', hv']
      rcases Bool.eq_false_or_eq_true (submoduleQualifies env m.mname mid) with h | h <;>
        simp [h]
    | funcV f =>
      obtain ⟨hc', hf', hs', hv'⟩ := char.2.1 f hval
      unfold catCount
      rw [hc', hf', hs', hv']
      rcases Bool.eq_false_or_eq_true (funcOwned m.mname f) with h | h <;> simp [h]
    | plainV v =>
      obtain ⟨hc', hf', hs', hv'⟩ := char.1 v hval
      unfold catCount
      rw [hc', hf', hs', hv']
      simp
  · intro v hval
    exact (char.1 v hval).2.2.2
  · intro c hval h3
    obtain ⟨hf', hs', hv', hcf, _⟩ := char.2.2.2 c hval
    unfold catCount
    rw [hf', hs', hv', hcf h3]
    simp
  · intro f hval h3
    obtain ⟨hc', hf', hs', hv'⟩ := char.2.1 f hval
    unfold catCount
    rw [hc', hf', hs', hv', h3]
    simp
  · intro mid hval h3
    obtain ⟨hc', hf', hs', hv'⟩ := char.2.2.1 mid hval
    unfold catCount
    rw [hc', hf', hs', hv', h3]
    simp

/-- Witness for the amended C2 theorem: in the concrete module `m` with the
plain accessible member `x`, the classifier records `x` as a variable. -/
theorem c2_classification_amended_witness :
    (getModuleMembers envTrivial modPlain {}).1.vars.lookup memX.name =
      some ({} : PyValue) :=
  (c2_classification_amended envTrivial modPlain {} memX (by decide) (by decide)
    rfl rfl).2.1 ({} : PyValue) rfl

/-- Claim C10: in class stub rendering, a member whose name begins with an
underscore is skipped unless it is one of exactly `__init__`, `__new__`,
`__call__`, `__str__`, `__repr__`; every other member that is accessible is
rendered (contributes exactly one entry, which appears among the rendered
entries of the class). -/
theorem c10_private_member_filter (cls : ClassObj) (mem : ClassMember)
    (hmem : mem ∈ cls.cmembers) :
    ((classMemberEntry mem).isSome =
      (mem.accessible && (!pyStartswith mem.name "_" || specialKeep.contains mem.name))) ∧
    (∀ e, classMemberEntry mem = some e → e ∈ classStubEntries cls) := by
  constructor
  · unfold classMemberEntry
    cases hu : pyStartswith mem.name "_" <;> cases hs : specialKeep.contains mem.name <;>
      cases ha : mem.accessible <;> simp [hu, hs, ha]
  · intro e he
    exact List.mem_filterMap.mpr ⟨mem, (mem_pySorted _ _ _).mpr hmem, he⟩

/-- Witness for C10: the public plain member `foo` of the concrete class `C`
passes the filter and its rendered variable line appears among the class's
stub entries. -/
theorem c10_private_member_filter_witness :
    (classMemberEntry memFoo).isSome =
      (memFoo.accessible &&
        (!pyStartswith memFoo.name "_" || specialKeep.contains memFoo.name)) ∧
    StubEntry.varE "    foo: Any" ∈ classStubEntries clsWithFoo :=
  ⟨(c10_private_member_filter clsWithFoo memFoo (by decide)).1,
   (c10_private_member_filter clsWithFoo memFoo (by decide)).2
     (StubEntry.varE "    foo: Any") (by decide)⟩

/-- Claim C3 (amended): for every class identity at most one descriptor
block is ever emitted, and duplicate names produce no output at all: given
the mapping consistency that `get_module_members` always establishes (each
listed class's identity maps to exactly the name it is listed under, proved
as `getModuleMembers_consistent`) and distinct identities in one namespace
(enforced by the in-namespace duplicate skip), the class-rendering loop's
output is exactly one full stub block per not-yet-processed identity — no
alias line is ever appended, within or across namespaces. -/
theorem c3_dedup_amended (mn : String) (cls : List (String × ClassObj)) (st : GenState)
    (acc : List String)
    (hcons : ∀ p ∈ cls, st.classNameMapping.lookup p.2.pyId = some p.1)
    (hids : (cls.map (fun p => p.2.pyId)).Nodup) :
    (processClasses mn cls st acc).2 =
      acc ++ (cls.filter (fun p => !st.processedClassObjects.contains p.2.pyId)).map
        (fun p => dumpClassStub p.2) := by
  induction cls generalizing st acc with
  | nil => simp [processClasses]
  | cons p rest ih =>
    obtain ⟨className, c⟩ := p
    have hhead := hcons (className, c) (List.mem_cons_self _ _)
    have hconsRest : ∀ q ∈ rest, st.classNameMapping.lookup q.2.pyId = some q.1 :=
      fun q hq => hcons q (List.mem_cons_of_mem _ hq)
    have hidsRest : (rest.map (fun q => q.2.pyId)).Nodup := (List.nodup_cons.mp hids).2
    have hnotin : c.pyId ∉ rest.map (fun q => q.2.pyId) := by
      have := (List.nodup_cons.mp hids).1
      simpa using this
    rcases Bool.eq_false_or_eq_true (st.processedClassObjects.contains c.pyId)
      with hproc | hproc
    · -- already processed: the alias check compares a name with itself
      have hstep : processClasses mn ((className, c) :: rest) st acc =
          processClasses mn rest st acc := by
        simp only [processClasses, hproc, if_true, hhead, Option.getD_some]
        simp
      rw [hstep, ih st acc hconsRest hidsRest]
      have hmem : c.pyId ∈ st.processedClassObjects := by
        simpa [List.contains, List.elem_eq_mem] using hproc
      simp [List.filter_cons, hmem]
    · -- fresh identity: exactly one stub block
      have hstep : processClasses mn ((className, c) :: rest) st acc =
          processClasses mn rest
            { st with
              processedClassObjects := setAdd st.processedClassObjects c.pyId,
              processedClasses := setAdd st.processedClasses (mn ++ "." ++ className) }
            (acc ++ [dumpClassStub c]) := by
        simp only [processClasses, hproc]
        simp
      have hconsRest' : ∀ q ∈ rest,
          (({ st with
              processedClassObjects := setAdd st.processedClassObjects c.pyId,
              processedClasses :=
                setAdd st.processedClasses (mn ++ "." ++ className) } :
            GenState).classNameMapping.lookup q.2.pyId = some q.1) := hconsRest
      rw [hstep, ih _ _ hconsRest' hidsRest]
      have hmem2 : c.pyId ∉ st.processedClassObjects := by
        simpa [List.contains, List.elem_eq_mem] using hproc
      have hset : setAdd st.processedClassObjects c.pyId =
          st.processedClassObjects ++ [c.pyId] := by
        simp [setAdd, hmem2]
      have hfilter :
          rest.filter (fun q =>
            !(setAdd st.processedClassObjects c.pyId).contains q.2.pyId) =
          rest.filter (fun q => !st.processedClassObjects.contains q.2.pyId) := by
        apply List.filter_congr
        intro q hq
        have hne : q.2.pyId ≠ c.pyId := by
          intro he
          exact hnotin (List.mem_map.mpr ⟨q, hq, he⟩)
        rw [hset, contains_append_singleton_ne _ _ _ hne]
      rw [hfilter]
      have hmem : c.pyId ∉ st.processedClassObjects := by
        simpa [List.contains, List.elem_eq_mem] using hproc
      simp [List.filter_cons, hmem]

/-- Witness for the amended C3 theorem: a class identity already rendered
under the consistently recorded name `W2` and reached again under `W2`
contributes nothing — no alias line, no block. -/
theorem c3_dedup_amended_witness :
    (processClasses "pkg.a.sub" [("W2", clsShared)] stSeen []).2 = ([] : List String) :=
  (c3_dedup_amended "pkg.a.sub" [("W2", clsShared)] stSeen []
    (by decide) (by decide)).trans (by decide)

/-- Claim C4: the tree builder never processes a namespace key twice and
terminates on cyclic or repeated submodule references: re-entering
`create_module_structure` with an already-visited (output path, qualified
name) pair returns immediately with the state and filesystem effects
unchanged (no classification, rendering, recursion or write); and whenever
every module name in the object graph has length at most `L`, fuel
`L + 2 - |module name|` suffices, so the recursion always reaches a result —
names strictly lengthen along the submodule relation, which bounds the
depth even in the presence of object-graph cycles. -/
theorem c4_processed_once (env : Env) (fuel L : Nat) (m : ModuleObj)
    (basePath moduleName : String) (st : GenState) (out : RunOut) :
    (st.processedModules.contains (basePath ++ "/" ++ moduleName) = true →
      createModuleStructure env (fuel + 1) m basePath moduleName st out =
        some (st, out)) ∧
    ((∀ n, (env n).mname.length ≤ L) → m.mname.length ≤ L →
      L + 2 ≤ fuel + m.mname.length →
      (createModuleStructure env fuel m basePath moduleName st out).isSome = true) := by
  constructor
  · intro hkey
    simp only [createModuleStructure, hkey, if_true]
  · intro henv hm hf
    exact createModuleStructure_terminates env L henv fuel m basePath moduleName st out hm hf

/-- Witness for C4: with the key `stubs/m` already processed, the call is an
exact no-op; and a concrete bounded environment terminates with fuel 3. -/
theorem c4_processed_once_witness :
    (createModuleStructure envTrivial 3 modAlias "stubs" "m" stVisited {} =
      some (stVisited, {})) ∧
    (createModuleStructure envTrivial 3 modAlias "stubs" "m" {} {}).isSome = true :=
  ⟨(c4_processed_once envTrivial 2 1 modAlias "stubs" "m" stVisited {}).1 (by decide),
   (c4_processed_once envTrivial 3 1 modAlias "stubs" "m"
     ({} : GenState) ({} : RunOut)).2 (fun _ => Nat.zero_le 1) (by decide) (by decide)⟩

/-- Claim C9: with the clear-existing-output flag enabled, no preparation
failures, and a fresh generator state per run, the produced output tree —
the final filesystem restricted to the output root — is a function of the
module graph alone: it is byte-identical across runs started from any two
initial filesystems, hence re-running twice on the same unchanged root
yields identical trees. -/
theorem c9_output_deterministic (env : Env) (fuel : Nat) (m : ModuleObj)
    (outputDir : String) (fs1 fs2 : FSState) (p : String) :
    (dumpModule env fuel m outputDir true false false fs1).map
      (fun r => r.map (fun g => outputTreeAt outputDir g p)) =
    (dumpModule env fuel m outputDir true false false fs2).map
      (fun r => r.map (fun g => outputTreeAt outputDir g p)) :=
  (dumpModule_outputTree env fuel m outputDir fs1 p).trans
    (dumpModule_outputTree env fuel m outputDir fs2 p).symm

/-- Claim C5 (code_bug evaluation): `_sanitize_name` is the identity on valid
identifiers and prefixes one underscore otherwise, but the result of
sanitizing the invalid name `my var` is `_my var`, which is still not a valid
identifier — contradicting the claim (and the function's own docstring
"Sanitize names to be valid Python identifiers"). -/
theorem c5_sanitizer_eval :
    sanitizeName "good_name" = "good_name" ∧
    pyIsIdentifier "my var" = false ∧
    sanitizeName "my var" = "_my var" ∧
    pyIsIdentifier "_my var" = false := by
  refine ⟨?_, ?_, ?_, ?_⟩ <;> rfl

/-- Claim C6 (counterexample): a value whose `__annotations__` mapping exists
but has no `'return'` entry and which IS an `int` instance (e.g. an `int`
subclass instance carrying an empty annotations dict): the code returns
`Any`, while the claim's ordered rule returns `int`. -/
theorem c6_order_counterexample :
    getTypeAnnotation { annots := some [], primKind := some PrimKind.pint } = "Any" ∧
    getTypeAnnotationClaim { annots := some [], primKind := some PrimKind.pint } = "int" := by
  refine ⟨?_, ?_⟩ <;> rfl

/-- Claim C6 (amended): the resolver is total (never raises) and follows the
rule: if the value exposes an annotations mapping, return the stringified
`'return'` entry, or `Any` when it is absent or unreadable — without ever
consulting the primitive-kind rule; otherwise return the primitive kind's
name when one matches; otherwise `Any`. -/
theorem c6_resolver_amended (v : PyValue) :
    getTypeAnnotation v = getTypeAnnotationAmended v := by
  unfold getTypeAnnotation getTypeAnnotationAmended declaredReturn
  cases h : v.annots with
  | none => simp
  | some entries =>
    cases hb : v.annotsBroken
    · cases hl : entries.lookup "return" <;> simp [hl]
    · simp

/-- Claim C7: with `demo` reaching the module `demo.utils` both under the
alias `helpers` and under `utils`, the run creates exactly the directories
`stubs/demo` and `stubs/demo/utils` (one subdirectory, named from the last
segment of the qualified name, not `helpers`), and the parent descriptor
contains the line `from . import utils`. -/
theorem c7_submodule_alias_example :
    runC7.map (fun r => r.2.dirs) = some ["stubs/demo", "stubs/demo/utils"] ∧
    c7ParentContent.map (fun c => (pyLines c).contains "from . import utils") = some true := by
  refine ⟨?_, ?_⟩ <;> rfl

/-- Claim C8 (counterexample): with a stale output tree present and the
clear-existing flag set, a failure of `shutil.rmtree` — which runs BEFORE the
`try` block of `dump_module` — escapes to the driver's caller, refuting the
claim that every exception during the run (including output-root
preparation) is caught at the driver boundary. -/
theorem c8_driver_counterexample :
    dumpModule envTrivial 2 modAlias "stubs" true true false fsStale =
      Except.error "rmtree" :=
  rfl

/-- Claim C8 (amended): once output-root preparation succeeds, everything
else — the whole traversal and reporting — runs inside the driver's `try`
block and no exception escapes: with the preparation steps not raising, the
driver always returns normally, whatever the module graph and initial
filesystem. -/
theorem c8_traversal_caught_amended (env : Env) (fuel : Nat) (m : ModuleObj)
    (outputDir : String) (removeIfExists : Bool) (fs : FSState) :
    exceptIsOk (dumpModule env fuel m outputDir removeIfExists false false fs) = true := by
  unfold dumpModule
  split
  · simp [exceptIsOk]
  · simp [exceptIsOk]

end PyiGen
